import Mathlib

/-!
Verification of the change-detection and deduplication engine of
`drishti_bot.py` (upsc-ca-webhook).

The engine is embedded shallowly:
* `Item`, `History` mirror the scraped records and the persisted history dict.
* Network effects (Discord POST outcomes, the per-date page fetch) are
  modelled by an oracle record `Env`: `notifyOk title link category` is the
  outcome of `send_discord_notification`, `fetchArticles url` the article
  list produced by `fetch_news_of_the_day`, and `batchOk` the outcome of
  `send_news_of_the_day_notification`.
* The two dedup loops of `main` (lines 284-301 and 305-315) become folds of
  step functions over `(links.take 5).reverse`, threading the full history
  plus the new-items flag, the pending derived-page item, and traces of
  attempted and successfully sent URLs.
* `load_history` is modelled over an abstract persisted state (`LoadInput`):
  the file may be missing, unreadable, or readable as a record whose three
  lists are each optionally present (`RawHistory`, mirroring a JSON dict with
  possibly-absent keys).
* `main`'s access `history["news"]` / `history["editorials"]` raises KeyError
  when the key is absent and that section's window is non-empty; this is the
  `.error` branch of `runFromRaw`.  (In CPython the editorials KeyError would
  occur after the news loop already ran; only the exit code of such a crashed
  run is examined here, so the early error is an equivalent model.)
-/

/-- MAX_HISTORY_SIZE from the source (line 12). -/
def MAX_HISTORY_SIZE : Nat := 50

/-- Python `l[-MAX_HISTORY_SIZE:]`: keep the most recent (last) 50 entries. -/
def capLast (l : List String) : List String := l.drop (l.length - MAX_HISTORY_SIZE)

/-- A scraped {title, url} record. -/
structure Item where
  title : String
  url : String
deriving DecidableEq, Repr

/-- The in-memory history dict with all three keys present. -/
structure History where
  news : List String
  editorials : List String
  news_articles : List String
deriving DecidableEq, Repr

/-- Oracle for the external collaborators (notifier outcomes, date-page fetch). -/
structure Env where
  notifyOk : String → String → String → Bool
  fetchArticles : String → List Item
  batchOk : String → List Item → String → Bool

/-- State threaded through the news loop (lines 284-301): the history dict,
the `new_items_found` flag, `news_date_to_fetch`, and traces of attempted and
successfully delivered URLs. -/
structure NewsState where
  hist : History
  newFound : Bool
  dateToFetch : Option Item
  attempts : List String
  sent : List String
deriving DecidableEq, Repr

/-- One iteration of the news loop body (lines 285-301). -/
def newsStep (env : Env) (s : NewsState) (it : Item) : NewsState :=
  if it.url ∈ s.hist.news then s
  else if env.notifyOk it.title it.url "Daily Current Affairs" then
    { hist := { s.hist with news := capLast (s.hist.news ++ [it.url]) }
      newFound := true
      dateToFetch := if s.dateToFetch.isNone then some it else s.dateToFetch
      attempts := s.attempts ++ [it.url]
      sent := s.sent ++ [it.url] }
  else { s with attempts := s.attempts ++ [it.url] }

/-- `for link_data in reversed(news_links[:5])` (line 284). -/
def processNews (env : Env) (h : History) (links : List Item) : NewsState :=
  List.foldl (newsStep env) ⟨h, false, none, [], []⟩ ((links.take 5).reverse)

/-- State threaded through the editorials loop (lines 305-315). -/
structure EdState where
  hist : History
  newFound : Bool
  attempts : List String
  sent : List String
deriving DecidableEq, Repr

/-- One iteration of the editorials loop body (lines 306-315). -/
def edStep (env : Env) (s : EdState) (it : Item) : EdState :=
  if it.url ∈ s.hist.editorials then s
  else if env.notifyOk it.title it.url "Important Editorial" then
    { hist := { s.hist with editorials := capLast (s.hist.editorials ++ [it.url]) }
      newFound := true
      attempts := s.attempts ++ [it.url]
      sent := s.sent ++ [it.url] }
  else { s with attempts := s.attempts ++ [it.url] }

/-- `for link_data in reversed(editorial_links[:5])` (line 305). -/
def processEditorials (env : Env) (h : History) (links : List Item) : EdState :=
  List.foldl (edStep env) ⟨h, false, [], []⟩ ((links.take 5).reverse)

/-- The News-of-the-Day step (lines 318-336): membership check against
`news_articles`, fetch, non-empty guard, batch send, append-on-success.
Returns the updated history and whether the batch was delivered. -/
def derivedNotify (env : Env) (dateToFetch : Option Item) (h : History) :
    History × Bool :=
  match dateToFetch with
  | none => (h, false)
  | some it =>
    if it.url ∈ h.news_articles then (h, false)
    else
      if env.fetchArticles it.url = [] then (h, false)
      else if env.batchOk it.title (env.fetchArticles it.url) it.url then
        ({ h with news_articles := capLast (h.news_articles ++ [it.url]) }, true)
      else (h, false)

/-- Everything one run of the engine produces, with observation traces. -/
structure RunResult where
  hist : History
  newFound : Bool
  newsAttempts : List String
  newsSent : List String
  edsAttempts : List String
  edsSent : List String
  derivedOk : Bool
  dateToFetch : Option Item
deriving DecidableEq, Repr

/-- One run of the engine on an already-loaded, fully-keyed history
(lines 273-336 after the fetch). -/
def runEngine (env : Env) (h : History) (newsLinks edLinks : List Item) :
    RunResult :=
  let ns := processNews env h newsLinks
  let es := processEditorials env ns.hist edLinks
  let d := derivedNotify env ns.dateToFetch es.hist
  { hist := d.1
    newFound := ns.newFound || es.newFound || d.2
    newsAttempts := ns.attempts
    newsSent := ns.sent
    edsAttempts := es.attempts
    edsSent := es.sent
    derivedOk := d.2
    dateToFetch := ns.dateToFetch }

/-- A readable persisted state: a JSON dict whose three lists may each be
absent (`none`). -/
structure RawHistory where
  news : Option (List String)
  editorials : Option (List String)
  news_articles : Option (List String)
deriving DecidableEq, Repr

/-- What `load_history` finds on disk. -/
inductive LoadInput where
  | missing
  | unreadable
  | readable (raw : RawHistory)
deriving DecidableEq, Repr

/-- `load_history` (lines 54-67): empty logs when the file is missing or
unreadable; for a readable dict only the `news_articles` key is backfilled. -/
def load_history : LoadInput → RawHistory
  | .missing => ⟨some [], some [], some []⟩
  | .unreadable => ⟨some [], some [], some []⟩
  | .readable raw =>
    { raw with news_articles := some (raw.news_articles.getD []) }

/-- Running `main`'s engine portion on a loaded raw dict.  `history["news"]`
(line 288) and `history["editorials"]` (line 309) raise KeyError when absent
and the corresponding window is non-empty; `news_articles` is only accessed
through `.get` with a default (line 324). -/
def runFromRaw (env : Env) (raw : RawHistory) (newsLinks edLinks : List Item) :
    Except Unit RunResult :=
  if (newsLinks.take 5) ≠ [] ∧ raw.news = none then .error ()
  else if (edLinks.take 5) ≠ [] ∧ raw.editorials = none then .error ()
  else .ok (runEngine env
    ⟨raw.news.getD [], raw.editorials.getD [], raw.news_articles.getD []⟩
    newsLinks edLinks)

/-- Observable outcome of one whole process invocation. -/
structure MainOutcome where
  exitCode : Nat
  usedNetwork : Bool
  saveResult : Option Bool
  result : Option RunResult
deriving DecidableEq, Repr

/-- `main` (lines 247-345): webhook validation before any I/O, front-page
fetch (`none` = fetch failed, exit 1), the engine, and the gated save.
`saveOk` is the outcome of `save_history`; a failed save is caught there
(lines 75-76) and never changes the exit code. -/
def mainModel (webhookConfigured : Bool) (fetched : Option (List Item × List Item))
    (env : Env) (li : LoadInput) (saveOk : Bool) : MainOutcome :=
  if webhookConfigured = false then ⟨1, false, none, none⟩
  else
    match fetched with
    | none => ⟨1, true, none, none⟩
    | some (nl, el) =>
      match runFromRaw env (load_history li) nl el with
      | .error _ => ⟨1, true, none, none⟩
      | .ok r => ⟨0, true, if r.newFound then some saveOk else none, some r⟩

/-- Oracle where every delivery succeeds and date pages are empty. -/
def envAllOk : Env :=
  ⟨fun _ _ _ => true, fun _ => [], fun _ _ _ => true⟩

example : (processNews envAllOk ⟨[], [], []⟩ [⟨"t1", "u1"⟩, ⟨"t2", "u2"⟩]).sent
    = ["u2", "u1"] := by decide

example : (processNews envAllOk ⟨["u1"], [], []⟩ [⟨"t1", "u1"⟩, ⟨"t2", "u2"⟩]).sent
    = ["u2"] := by decide

/-! ### Helper lemmas about `capLast` -/

lemma capLast_length_le (l : List String) :
    (capLast l).length ≤ MAX_HISTORY_SIZE := by
  simp only [capLast, List.length_drop, MAX_HISTORY_SIZE]
  omega

lemma capLast_length (l : List String) :
    (capLast l).length = min MAX_HISTORY_SIZE l.length := by
  simp only [capLast, List.length_drop, MAX_HISTORY_SIZE]
  omega

lemma capLast_eq_of_le (l : List String) (h : l.length ≤ MAX_HISTORY_SIZE) :
    capLast l = l := by
  have : l.length - MAX_HISTORY_SIZE = 0 := by omega
  simp [capLast, this]

lemma take_append_capLast (l : List String) :
    l.take (l.length - MAX_HISTORY_SIZE) ++ capLast l = l :=
  List.take_append_drop _ l

/-! ### Suffix helpers -/

lemma suffix_append_single {s l : List String} (h : s <:+ l) (u : String) :
    s ++ [u] <:+ l ++ [u] := by
  obtain ⟨t, ht⟩ := h
  exact ⟨t, by rw [← List.append_assoc, ht]⟩

lemma suffix_drop_of_suffix {s l : List String} (d : Nat) (h : s <:+ l)
    (hd : s.length + d ≤ l.length) : s <:+ l.drop d := by
  obtain ⟨t, ht⟩ := h
  subst ht
  have htl : d ≤ t.length := by
    have := List.length_append t s
    omega
  exact ⟨t.drop d, by rw [List.drop_append_of_le_length htl]⟩

lemma suffix_capLast_append {s l : List String} (h : s <:+ l) (u : String)
    (hlen : s.length + 1 ≤ MAX_HISTORY_SIZE) :
    s ++ [u] <:+ capLast (l ++ [u]) := by
  apply suffix_drop_of_suffix
  · exact suffix_append_single h u
  · have h1 : s.length ≤ l.length := h.length_le
    simp only [List.length_append, List.length_cons, List.length_nil,
      MAX_HISTORY_SIZE] at *
    omega

/-! ### Step-level case lemmas for the news loop -/

lemma newsStep_of_mem (env : Env) (s : NewsState) (it : Item)
    (h : it.url ∈ s.hist.news) : newsStep env s it = s := by
  simp [newsStep, h]

lemma newsStep_of_ok (env : Env) (s : NewsState) (it : Item)
    (h : it.url ∉ s.hist.news)
    (hok : env.notifyOk it.title it.url "Daily Current Affairs" = true) :
    newsStep env s it =
      { hist := { s.hist with news := capLast (s.hist.news ++ [it.url]) }
        newFound := true
        dateToFetch := if s.dateToFetch.isNone then some it else s.dateToFetch
        attempts := s.attempts ++ [it.url]
        sent := s.sent ++ [it.url] } := by
  simp [newsStep, h, hok]

lemma newsStep_of_fail (env : Env) (s : NewsState) (it : Item)
    (h : it.url ∉ s.hist.news)
    (hok : env.notifyOk it.title it.url "Daily Current Affairs" = false) :
    newsStep env s it = { s with attempts := s.attempts ++ [it.url] } := by
  simp [newsStep, h, hok]

lemma edStep_of_mem (env : Env) (s : EdState) (it : Item)
    (h : it.url ∈ s.hist.editorials) : edStep env s it = s := by
  simp [edStep, h]

lemma edStep_of_ok (env : Env) (s : EdState) (it : Item)
    (h : it.url ∉ s.hist.editorials)
    (hok : env.notifyOk it.title it.url "Important Editorial" = true) :
    edStep env s it =
      { hist := { s.hist with editorials := capLast (s.hist.editorials ++ [it.url]) }
        newFound := true
        attempts := s.attempts ++ [it.url]
        sent := s.sent ++ [it.url] } := by
  simp [edStep, h, hok]

lemma edStep_of_fail (env : Env) (s : EdState) (it : Item)
    (h : it.url ∉ s.hist.editorials)
    (hok : env.notifyOk it.title it.url "Important Editorial" = false) :
    edStep env s it = { s with attempts := s.attempts ++ [it.url] } := by
  simp [edStep, h, hok]

/-! ### Frame lemmas: each loop touches only its own log -/

lemma newsStep_frame (env : Env) (s : NewsState) (it : Item) :
    (newsStep env s it).hist.editorials = s.hist.editorials ∧
    (newsStep env s it).hist.news_articles = s.hist.news_articles := by
  unfold newsStep
  split
  · exact ⟨rfl, rfl⟩
  · split
    · exact ⟨rfl, rfl⟩
    · exact ⟨rfl, rfl⟩

lemma foldl_newsStep_frame (env : Env) (items : List Item) :
    ∀ s : NewsState,
      (List.foldl (newsStep env) s items).hist.editorials = s.hist.editorials ∧
      (List.foldl (newsStep env) s items).hist.news_articles = s.hist.news_articles := by
  induction items with
  | nil => intro s; exact ⟨rfl, rfl⟩
  | cons it rest ih =>
    intro s
    have h1 := newsStep_frame env s it
    have h2 := ih (newsStep env s it)
    simp only [List.foldl_cons]
    exact ⟨h2.1.trans h1.1, h2.2.trans h1.2⟩

lemma edStep_frame (env : Env) (s : EdState) (it : Item) :
    (edStep env s it).hist.news = s.hist.news ∧
    (edStep env s it).hist.news_articles = s.hist.news_articles := by
  unfold edStep
  split
  · exact ⟨rfl, rfl⟩
  · split
    · exact ⟨rfl, rfl⟩
    · exact ⟨rfl, rfl⟩

lemma foldl_edStep_frame (env : Env) (items : List Item) :
    ∀ s : EdState,
      (List.foldl (edStep env) s items).hist.news = s.hist.news ∧
      (List.foldl (edStep env) s items).hist.news_articles = s.hist.news_articles := by
  induction items with
  | nil => intro s; exact ⟨rfl, rfl⟩
  | cons it rest ih =>
    intro s
    have h1 := edStep_frame env s it
    have h2 := ih (edStep env s it)
    simp only [List.foldl_cons]
    exact ⟨h2.1.trans h1.1, h2.2.trans h1.2⟩

/-! ### Cap-preservation folds -/

lemma foldl_newsStep_cap (env : Env) (items : List Item) :
    ∀ s : NewsState, s.hist.news.length ≤ MAX_HISTORY_SIZE →
      (List.foldl (newsStep env) s items).hist.news.length ≤ MAX_HISTORY_SIZE := by
  induction items with
  | nil => intro s hs; exact hs
  | cons it rest ih =>
    intro s hs
    simp only [List.foldl_cons]
    apply ih
    by_cases hmem : it.url ∈ s.hist.news
    · rw [newsStep_of_mem env s it hmem]; exact hs
    · cases hok : env.notifyOk it.title it.url "Daily Current Affairs" with
      | true =>
        rw [newsStep_of_ok env s it hmem hok]
        exact capLast_length_le _
      | false =>
        rw [newsStep_of_fail env s it hmem hok]
        exact hs

lemma foldl_edStep_cap (env : Env) (items : List Item) :
    ∀ s : EdState, s.hist.editorials.length ≤ MAX_HISTORY_SIZE →
      (List.foldl (edStep env) s items).hist.editorials.length ≤ MAX_HISTORY_SIZE := by
  induction items with
  | nil => intro s hs; exact hs
  | cons it rest ih =>
    intro s hs
    simp only [List.foldl_cons]
    apply ih
    by_cases hmem : it.url ∈ s.hist.editorials
    · rw [edStep_of_mem env s it hmem]; exact hs
    · cases hok : env.notifyOk it.title it.url "Important Editorial" with
      | true =>
        rw [edStep_of_ok env s it hmem hok]
        exact capLast_length_le _
      | false =>
        rw [edStep_of_fail env s it hmem hok]
        exact hs

lemma derivedNotify_cap (env : Env) (d : Option Item) (h : History)
    (hs : h.news_articles.length ≤ MAX_HISTORY_SIZE) :
    (derivedNotify env d h).1.news_articles.length ≤ MAX_HISTORY_SIZE := by
  unfold derivedNotify
  match d with
  | none => exact hs
  | some it =>
    simp only
    split
    · exact hs
    · split
      · exact hs
      · split
        · exact capLast_length_le _
        · exact hs

/-! ### The new-items flag is set exactly when something was delivered -/

lemma foldl_newsStep_flag (env : Env) (items : List Item) :
    ∀ s : NewsState, (s.newFound = true ↔ s.sent ≠ []) →
      ((List.foldl (newsStep env) s items).newFound = true ↔
        (List.foldl (newsStep env) s items).sent ≠ []) := by
  induction items with
  | nil => intro s hs; exact hs
  | cons it rest ih =>
    intro s hs
    simp only [List.foldl_cons]
    apply ih
    by_cases hmem : it.url ∈ s.hist.news
    · rw [newsStep_of_mem env s it hmem]; exact hs
    · cases hok : env.notifyOk it.title it.url "Daily Current Affairs" with
      | true =>
        rw [newsStep_of_ok env s it hmem hok]
        simp
      | false =>
        rw [newsStep_of_fail env s it hmem hok]
        exact hs

lemma foldl_edStep_flag (env : Env) (items : List Item) :
    ∀ s : EdState, (s.newFound = true ↔ s.sent ≠ []) →
      ((List.foldl (edStep env) s items).newFound = true ↔
        (List.foldl (edStep env) s items).sent ≠ []) := by
  induction items with
  | nil => intro s hs; exact hs
  | cons it rest ih =>
    intro s hs
    simp only [List.foldl_cons]
    apply ih
    by_cases hmem : it.url ∈ s.hist.editorials
    · rw [edStep_of_mem env s it hmem]; exact hs
    · cases hok : env.notifyOk it.title it.url "Important Editorial" with
      | true =>
        rw [edStep_of_ok env s it hmem hok]
        simp
      | false =>
        rw [edStep_of_fail env s it hmem hok]
        exact hs

/-! ### The tracked date page is the first (chronologically earliest) success -/

lemma foldl_newsStep_date (env : Env) (items : List Item) :
    ∀ s : NewsState, s.dateToFetch.map Item.url = s.sent.head? →
      (List.foldl (newsStep env) s items).dateToFetch.map Item.url =
        (List.foldl (newsStep env) s items).sent.head? := by
  induction items with
  | nil => intro s hs; exact hs
  | cons it rest ih =>
    intro s hs
    simp only [List.foldl_cons]
    apply ih
    by_cases hmem : it.url ∈ s.hist.news
    · rw [newsStep_of_mem env s it hmem]; exact hs
    · cases hok : env.notifyOk it.title it.url "Daily Current Affairs" with
      | true =>
        rw [newsStep_of_ok env s it hmem hok]
        simp only
        cases hd : s.dateToFetch with
        | none =>
          have hsent : s.sent = [] := by
            rw [hd] at hs
            simpa [List.head?_eq_none_iff] using hs.symm
          simp [hd, hsent]
        | some d =>
          have hsent : s.sent.head? = some d.url := by
            rw [hd] at hs
            simpa using hs.symm
          rcases hsl : s.sent with _ | ⟨a, tl⟩
          · rw [hsl] at hsent; simp at hsent
          · rw [hsl] at hsent
            simp at hsent
            simp [hd, hsent]
      | false =>
        rw [newsStep_of_fail env s it hmem hok]
        exact hs

/-! ### Below the cap slack, URLs of the loaded log are never re-attempted -/

lemma foldl_newsStep_no_reattempt (env : Env) (L0 : List String)
    (items : List Item) :
    ∀ s : NewsState,
      (∀ u ∈ L0, u ∈ s.hist.news) →
      (∀ u ∈ L0, u ∉ s.attempts) →
      s.hist.news.length + items.length ≤ MAX_HISTORY_SIZE →
      ∀ u ∈ L0, u ∉ (List.foldl (newsStep env) s items).attempts := by
  induction items with
  | nil => intro s _ h2 _ u hu; exact h2 u hu
  | cons it rest ih =>
    intro s h1 h2 h3
    simp only [List.foldl_cons, List.length_cons] at *
    by_cases hmem : it.url ∈ s.hist.news
    · rw [newsStep_of_mem env s it hmem]
      exact ih s h1 h2 (by omega)
    · have hne : it.url ∉ L0 := fun hin => hmem (h1 _ hin)
      have hcap : (s.hist.news ++ [it.url]).length ≤ MAX_HISTORY_SIZE := by
        simp only [List.length_append, List.length_cons, List.length_nil]
        omega
      cases hok : env.notifyOk it.title it.url "Daily Current Affairs" with
      | true =>
        rw [newsStep_of_ok env s it hmem hok]
        apply ih
        · intro u hu
          show u ∈ capLast (s.hist.news ++ [it.url])
          rw [capLast_eq_of_le _ hcap]
          exact List.mem_append_left _ (h1 u hu)
        · intro u hu
          show u ∉ s.attempts ++ [it.url]
          simp only [List.mem_append, List.mem_singleton]
          rintro (h | h)
          · exact h2 u hu h
          · exact hne (h ▸ hu)
        · show (capLast (s.hist.news ++ [it.url])).length + rest.length ≤ _
          rw [capLast_eq_of_le _ hcap]
          simp only [List.length_append, List.length_cons, List.length_nil]
          omega
      | false =>
        rw [newsStep_of_fail env s it hmem hok]
        apply ih
        · exact h1
        · intro u hu
          show u ∉ s.attempts ++ [it.url]
          simp only [List.mem_append, List.mem_singleton]
          rintro (h | h)
          · exact h2 u hu h
          · exact hne (h ▸ hu)
        · show s.hist.news.length + rest.length ≤ _
          omega

lemma foldl_edStep_no_reattempt (env : Env) (L0 : List String)
    (items : List Item) :
    ∀ s : EdState,
      (∀ u ∈ L0, u ∈ s.hist.editorials) →
      (∀ u ∈ L0, u ∉ s.attempts) →
      s.hist.editorials.length + items.length ≤ MAX_HISTORY_SIZE →
      ∀ u ∈ L0, u ∉ (List.foldl (edStep env) s items).attempts := by
  induction items with
  | nil => intro s _ h2 _ u hu; exact h2 u hu
  | cons it rest ih =>
    intro s h1 h2 h3
    simp only [List.foldl_cons, List.length_cons] at *
    by_cases hmem : it.url ∈ s.hist.editorials
    · rw [edStep_of_mem env s it hmem]
      exact ih s h1 h2 (by omega)
    · have hne : it.url ∉ L0 := fun hin => hmem (h1 _ hin)
      have hcap : (s.hist.editorials ++ [it.url]).length ≤ MAX_HISTORY_SIZE := by
        simp only [List.length_append, List.length_cons, List.length_nil]
        omega
      cases hok : env.notifyOk it.title it.url "Important Editorial" with
      | true =>
        rw [edStep_of_ok env s it hmem hok]
        apply ih
        · intro u hu
          show u ∈ capLast (s.hist.editorials ++ [it.url])
          rw [capLast_eq_of_le _ hcap]
          exact List.mem_append_left _ (h1 u hu)
        · intro u hu
          show u ∉ s.attempts ++ [it.url]
          simp only [List.mem_append, List.mem_singleton]
          rintro (h | h)
          · exact h2 u hu h
          · exact hne (h ▸ hu)
        · show (capLast (s.hist.editorials ++ [it.url])).length + rest.length ≤ _
          rw [capLast_eq_of_le _ hcap]
          simp only [List.length_append, List.length_cons, List.length_nil]
          omega
      | false =>
        rw [edStep_of_fail env s it hmem hok]
        apply ih
        · exact h1
        · intro u hu
          show u ∉ s.attempts ++ [it.url]
          simp only [List.mem_append, List.mem_singleton]
          rintro (h | h)
          · exact h2 u hu h
          · exact hne (h ▸ hu)
        · show s.hist.editorials.length + rest.length ≤ _
          omega

/-! ### The successful-send trace never repeats a URL -/

lemma foldl_newsStep_nodup (env : Env) (items : List Item) :
    ∀ s : NewsState, s.sent <:+ s.hist.news → s.sent.Nodup →
      s.sent.length + items.length ≤ MAX_HISTORY_SIZE →
      (List.foldl (newsStep env) s items).sent.Nodup := by
  induction items with
  | nil => intro s _ h2 _; exact h2
  | cons it rest ih =>
    intro s h1 h2 h3
    simp only [List.foldl_cons, List.length_cons] at *
    by_cases hmem : it.url ∈ s.hist.news
    · rw [newsStep_of_mem env s it hmem]
      exact ih s h1 h2 (by omega)
    · cases hok : env.notifyOk it.title it.url "Daily Current Affairs" with
      | true =>
        rw [newsStep_of_ok env s it hmem hok]
        apply ih
        · show s.sent ++ [it.url] <:+ capLast (s.hist.news ++ [it.url])
          exact suffix_capLast_append h1 it.url (by omega)
        · show (s.sent ++ [it.url]).Nodup
          have hnotin : it.url ∉ s.sent := fun hin => hmem (h1.subset hin)
          rw [List.nodup_append]
          refine ⟨h2, List.nodup_singleton _, ?_⟩
          intro a ha hb
          simp only [List.mem_singleton] at hb
          exact hnotin (hb ▸ ha)
        · show (s.sent ++ [it.url]).length + rest.length ≤ _
          simp only [List.length_append, List.length_cons, List.length_nil]
          omega
      | false =>
        rw [newsStep_of_fail env s it hmem hok]
        apply ih
        · exact h1
        · exact h2
        · show s.sent.length + rest.length ≤ _
          omega

lemma foldl_edStep_nodup (env : Env) (items : List Item) :
    ∀ s : EdState, s.sent <:+ s.hist.editorials → s.sent.Nodup →
      s.sent.length + items.length ≤ MAX_HISTORY_SIZE →
      (List.foldl (edStep env) s items).sent.Nodup := by
  induction items with
  | nil => intro s _ h2 _; exact h2
  | cons it rest ih =>
    intro s h1 h2 h3
    simp only [List.foldl_cons, List.length_cons] at *
    by_cases hmem : it.url ∈ s.hist.editorials
    · rw [edStep_of_mem env s it hmem]
      exact ih s h1 h2 (by omega)
    · cases hok : env.notifyOk it.title it.url "Important Editorial" with
      | true =>
        rw [edStep_of_ok env s it hmem hok]
        apply ih
        · show s.sent ++ [it.url] <:+ capLast (s.hist.editorials ++ [it.url])
          exact suffix_capLast_append h1 it.url (by omega)
        · show (s.sent ++ [it.url]).Nodup
          have hnotin : it.url ∉ s.sent := fun hin => hmem (h1.subset hin)
          rw [List.nodup_append]
          refine ⟨h2, List.nodup_singleton _, ?_⟩
          intro a ha hb
          simp only [List.mem_singleton] at hb
          exact hnotin (hb ▸ ha)
        · show (s.sent ++ [it.url]).length + rest.length ≤ _
          simp only [List.length_append, List.length_cons, List.length_nil]
          omega
      | false =>
        rw [edStep_of_fail env s it hmem hok]
        apply ih
        · exact h1
        · exact h2
        · show s.sent.length + rest.length ≤ _
          omega

lemma derivedNotify_frame (env : Env) (d : Option Item) (h : History) :
    (derivedNotify env d h).1.news = h.news ∧
    (derivedNotify env d h).1.editorials = h.editorials := by
  unfold derivedNotify
  match d with
  | none => exact ⟨rfl, rfl⟩
  | some it =>
    simp only
    split
    · exact ⟨rfl, rfl⟩
    · split
      · exact ⟨rfl, rfl⟩
      · split
        · exact ⟨rfl, rfl⟩
        · exact ⟨rfl, rfl⟩

/-! ### Definitional helpers for `runEngine` projections -/

lemma processNews_def (env : Env) (h : History) (links : List Item) :
    processNews env h links =
      List.foldl (newsStep env) ⟨h, false, none, [], []⟩ ((links.take 5).reverse) :=
  rfl

lemma processEditorials_def (env : Env) (h : History) (links : List Item) :
    processEditorials env h links =
      List.foldl (edStep env) ⟨h, false, [], []⟩ ((links.take 5).reverse) :=
  rfl

lemma runEngine_hist (env : Env) (h : History) (nl el : List Item) :
    (runEngine env h nl el).hist =
      (derivedNotify env (processNews env h nl).dateToFetch
        (processEditorials env (processNews env h nl).hist el).hist).1 :=
  rfl

lemma runEngine_newsAttempts (env : Env) (h : History) (nl el : List Item) :
    (runEngine env h nl el).newsAttempts = (processNews env h nl).attempts :=
  rfl

lemma runEngine_newsSent (env : Env) (h : History) (nl el : List Item) :
    (runEngine env h nl el).newsSent = (processNews env h nl).sent :=
  rfl

lemma runEngine_edsAttempts (env : Env) (h : History) (nl el : List Item) :
    (runEngine env h nl el).edsAttempts =
      (processEditorials env (processNews env h nl).hist el).attempts :=
  rfl

lemma runEngine_edsSent (env : Env) (h : History) (nl el : List Item) :
    (runEngine env h nl el).edsSent =
      (processEditorials env (processNews env h nl).hist el).sent :=
  rfl

lemma runEngine_newFound (env : Env) (h : History) (nl el : List Item) :
    (runEngine env h nl el).newFound =
      ((processNews env h nl).newFound ||
        (processEditorials env (processNews env h nl).hist el).newFound ||
        (derivedNotify env (processNews env h nl).dateToFetch
          (processEditorials env (processNews env h nl).hist el).hist).2) :=
  rfl

lemma runEngine_derivedOk (env : Env) (h : History) (nl el : List Item) :
    (runEngine env h nl el).derivedOk =
      (derivedNotify env (processNews env h nl).dateToFetch
        (processEditorials env (processNews env h nl).hist el).hist).2 :=
  rfl

lemma window_length_le (links : List Item) :
    ((links.take 5).reverse).length ≤ 5 := by
  simp only [List.length_reverse, List.length_take]
  omega

/-! ### Claim theorems -/

/-- C10: each processing phase mutates only its own log.  The news loop leaves
the editorials and derived-page logs exactly as given, the editorials loop
leaves the news and derived-page logs, and the News-of-the-Day step leaves the
news and editorials logs. -/
theorem C10_frame (env : Env) (h : History) (links : List Item) (d : Option Item) :
    (processNews env h links).hist.editorials = h.editorials ∧
    (processNews env h links).hist.news_articles = h.news_articles ∧
    (processEditorials env h links).hist.news = h.news ∧
    (processEditorials env h links).hist.news_articles = h.news_articles ∧
    (derivedNotify env d h).1.news = h.news ∧
    (derivedNotify env d h).1.editorials = h.editorials := by
  refine ⟨?_, ?_, ?_, ?_, (derivedNotify_frame env d h).1, (derivedNotify_frame env d h).2⟩
  · exact (foldl_newsStep_frame env ((links.take 5).reverse) ⟨h, false, none, [], []⟩).1
  · exact (foldl_newsStep_frame env ((links.take 5).reverse) ⟨h, false, none, [], []⟩).2
  · exact (foldl_edStep_frame env ((links.take 5).reverse) ⟨h, false, [], []⟩).1
  · exact (foldl_edStep_frame env ((links.take 5).reverse) ⟨h, false, [], []⟩).2

/-- C9: within a single run no URL receives more than one successful item
notification in the same category (the successful-send traces are duplicate
free), and on the concrete duplicate window `[u, u]` with an empty history the
second occurrence is not even attempted after the first delivery succeeds. -/
theorem C9_no_duplicate_sends (env : Env) (h : History) (nl el : List Item) :
    (runEngine env h nl el).newsSent.Nodup ∧
    (runEngine env h nl el).edsSent.Nodup ∧
    (runEngine envAllOk ⟨[], [], []⟩ [⟨"a", "u"⟩, ⟨"b", "u"⟩] []).newsAttempts = ["u"] ∧
    (runEngine envAllOk ⟨[], [], []⟩ [⟨"a", "u"⟩, ⟨"b", "u"⟩] []).newsSent = ["u"] := by
  refine ⟨?_, ?_, by decide, by decide⟩
  · rw [runEngine_newsSent, processNews_def]
    apply foldl_newsStep_nodup env ((nl.take 5).reverse) ⟨h, false, none, [], []⟩
      (List.nil_suffix) List.nodup_nil
    have := window_length_le nl
    show 0 + ((nl.take 5).reverse).length ≤ 50
    omega
  · rw [runEngine_edsSent, processEditorials_def]
    apply foldl_edStep_nodup env ((el.take 5).reverse)
      ⟨(processNews env h nl).hist, false, [], []⟩
      (List.nil_suffix) List.nodup_nil
    have := window_length_le el
    show 0 + ((el.take 5).reverse).length ≤ 50
    omega

/-- C3: starting from a history whose three logs are each no longer than the
cap 50, every log is still no longer than 50 after a run; the cap operation
keeps exactly the most recent entries, dropping precisely the oldest ones
(`capLast l` is the suffix of `l` of length `min 50 l.length`, and what is
dropped is the front segment `l.take (l.length - 50)`). -/
theorem C3_history_cap (env : Env) (h : History) (nl el : List Item)
    (h1 : h.news.length ≤ MAX_HISTORY_SIZE)
    (h2 : h.editorials.length ≤ MAX_HISTORY_SIZE)
    (h3 : h.news_articles.length ≤ MAX_HISTORY_SIZE) :
    (runEngine env h nl el).hist.news.length ≤ MAX_HISTORY_SIZE ∧
    (runEngine env h nl el).hist.editorials.length ≤ MAX_HISTORY_SIZE ∧
    (runEngine env h nl el).hist.news_articles.length ≤ MAX_HISTORY_SIZE ∧
    (∀ l : List String,
      l.take (l.length - MAX_HISTORY_SIZE) ++ capLast l = l ∧
      (capLast l).length = min MAX_HISTORY_SIZE l.length) := by
  have hnewsCap : (processNews env h nl).hist.news.length ≤ MAX_HISTORY_SIZE := by
    rw [processNews_def]
    exact foldl_newsStep_cap env ((nl.take 5).reverse) ⟨h, false, none, [], []⟩ h1
  have hnewsFrame := foldl_newsStep_frame env ((nl.take 5).reverse) ⟨h, false, none, [], []⟩
  have hedFrame := foldl_edStep_frame env ((el.take 5).reverse)
    ⟨(processNews env h nl).hist, false, [], []⟩
  have hdFrame := derivedNotify_frame env (processNews env h nl).dateToFetch
    (processEditorials env (processNews env h nl).hist el).hist
  refine ⟨?_, ?_, ?_, fun l => ⟨take_append_capLast l, capLast_length l⟩⟩
  · rw [runEngine_hist, hdFrame.1]
    calc (processEditorials env (processNews env h nl).hist el).hist.news.length
        = (processNews env h nl).hist.news.length := by
          rw [processEditorials_def]; rw [hedFrame.1]
      _ ≤ MAX_HISTORY_SIZE := hnewsCap
  · rw [runEngine_hist, hdFrame.2, processEditorials_def]
    apply foldl_edStep_cap
    show (processNews env h nl).hist.editorials.length ≤ MAX_HISTORY_SIZE
    rw [processNews_def, hnewsFrame.1]
    exact h2
  · rw [runEngine_hist]
    apply derivedNotify_cap
    show (processEditorials env (processNews env h nl).hist el).hist.news_articles.length
      ≤ MAX_HISTORY_SIZE
    rw [processEditorials_def, hedFrame.2, processNews_def, hnewsFrame.2]
    exact h3

/-- C3 witness: the cap theorem applied at a concrete run. -/
theorem C3_history_cap_witness :
    (runEngine envAllOk ⟨["a"], [], []⟩ [⟨"t", "u"⟩] []).hist.news.length
      ≤ MAX_HISTORY_SIZE :=
  (C3_history_cap envAllOk ⟨["a"], [], []⟩ [⟨"t", "u"⟩] []
    (by decide) (by decide) (by decide)).1

/-- C2: only the first 5 scraped items are considered (processing any list
equals processing its first-5 window, so shorter lists are processed whole),
the window is iterated in reverse, and on the concrete 5-item news list where
exactly positions 1 and 3 (0-indexed, most-recent-first) are new, position 3
is announced before position 1. -/
theorem C2_window_and_order (env : Env) (h : History) (links : List Item) :
    (processNews env h links =
      List.foldl (newsStep env) ⟨h, false, none, [], []⟩ ((links.take 5).reverse)) ∧
    processNews env h links = processNews env h (links.take 5) ∧
    processEditorials env h links = processEditorials env h (links.take 5) ∧
    (processNews envAllOk ⟨["u0", "u2", "u4"], [], []⟩
        [⟨"t0", "u0"⟩, ⟨"t1", "u1"⟩, ⟨"t2", "u2"⟩, ⟨"t3", "u3"⟩, ⟨"t4", "u4"⟩]).sent
      = ["u3", "u1"] := by
  refine ⟨rfl, ?_, ?_, by decide⟩
  · unfold processNews
    rw [List.take_take]
    norm_num
  · unfold processEditorials
    rw [List.take_take]
    norm_num

/-- C1 counterexample: with a news log already at the cap (50 entries), a run
that first announces a fresh URL evicts the oldest logged URL `u0`; the same
run then attempts and successfully sends a notification for `u0` even though
`u0` was present in the loaded history's news log. -/
def cexLog : List String := (List.range 50).map (fun i => "u" ++ toString i)

def cexHist : History := ⟨cexLog, [], []⟩

theorem C1_cex :
    "u0" ∈ cexHist.news ∧
    "u0" ∈ (runEngine envAllOk cexHist [⟨"a", "u0"⟩, ⟨"b", "x"⟩] []).newsAttempts ∧
    "u0" ∈ (runEngine envAllOk cexHist [⟨"a", "u0"⟩, ⟨"b", "x"⟩] []).newsSent := by
  refine ⟨by decide, by decide, by decide⟩

/-- C1 (amended): the membership check precedes every notification attempt, so
whenever the loaded log has enough slack that no mid-run FIFO eviction can
drop one of its entries (length at most 45 = cap minus window size), the run
never attempts — hence never sends — a notification for a URL already present
in the corresponding log of the loaded history.  (At the cap this fails: see
the counterexample.) -/
theorem C1_no_reannounce (env : Env) (h : History) (nl el : List Item) :
    (h.news.length + 5 ≤ MAX_HISTORY_SIZE →
      ∀ u ∈ h.news, u ∉ (runEngine env h nl el).newsAttempts) ∧
    (h.editorials.length + 5 ≤ MAX_HISTORY_SIZE →
      ∀ u ∈ h.editorials, u ∉ (runEngine env h nl el).edsAttempts) := by
  constructor
  · intro hlen u hu
    rw [runEngine_newsAttempts, processNews_def]
    have hw := window_length_le nl
    apply foldl_newsStep_no_reattempt env h.news ((nl.take 5).reverse)
      ⟨h, false, none, [], []⟩ (fun _ hx => hx) (by simp) ?_ u hu
    show h.news.length + ((nl.take 5).reverse).length ≤ MAX_HISTORY_SIZE
    omega
  · intro hlen u hu
    rw [runEngine_edsAttempts, processEditorials_def]
    have hw := window_length_le el
    have hfr := foldl_newsStep_frame env ((nl.take 5).reverse) ⟨h, false, none, [], []⟩
    apply foldl_edStep_no_reattempt env h.editorials ((el.take 5).reverse)
      ⟨(processNews env h nl).hist, false, [], []⟩ ?_ (by simp) ?_ u hu
    · intro v hv
      show v ∈ (processNews env h nl).hist.editorials
      rw [processNews_def, hfr.1]
      exact hv
    · show (processNews env h nl).hist.editorials.length + ((el.take 5).reverse).length
        ≤ MAX_HISTORY_SIZE
      rw [processNews_def, hfr.1]
      show h.editorials.length + ((el.take 5).reverse).length ≤ MAX_HISTORY_SIZE
      omega

/-- C1 witness: the amended theorem applied at a concrete history with slack. -/
theorem C1_no_reannounce_witness :
    "a" ∉ (runEngine envAllOk ⟨["a"], ["b"], []⟩ [⟨"t", "a"⟩, ⟨"s", "c"⟩] []).newsAttempts :=
  (C1_no_reannounce envAllOk ⟨["a"], ["b"], []⟩ [⟨"t", "a"⟩, ⟨"s", "c"⟩] []).1
    (by decide) "a" (by decide)

/-- Oracle whose date pages carry one article and whose batch send succeeds. -/
def envArts : Env :=
  ⟨fun _ _ _ => true, fun _ => [⟨"a1", "w1"⟩], fun _ _ _ => true⟩

/-- Oracle whose date pages carry one article but whose batch send fails. -/
def envArtsFail : Env :=
  ⟨fun _ _ _ => true, fun _ => [⟨"a1", "w1"⟩], fun _ _ _ => false⟩

/-- C4: the derived-page key is the URL of the chronologically-earliest newly
announced news item (the head of the successful-send trace of the reverse
scan); if the key is already in the derived-page log the batch is not
re-triggered; with an empty extracted article list nothing is emitted; the key
is appended (FIFO-capped) exactly when the batch delivery succeeds. -/
theorem C4_derived_page (env : Env) (h : History) (links : List Item)
    (it : Item) (hist : History) :
    ((processNews env h links).dateToFetch.map Item.url
        = (processNews env h links).sent.head?) ∧
    (it.url ∈ hist.news_articles → derivedNotify env (some it) hist = (hist, false)) ∧
    (it.url ∉ hist.news_articles → env.fetchArticles it.url = [] →
      derivedNotify env (some it) hist = (hist, false)) ∧
    (it.url ∉ hist.news_articles → env.fetchArticles it.url ≠ [] →
      env.batchOk it.title (env.fetchArticles it.url) it.url = true →
      derivedNotify env (some it) hist =
        ({ hist with news_articles := capLast (hist.news_articles ++ [it.url]) }, true)) ∧
    (it.url ∉ hist.news_articles → env.fetchArticles it.url ≠ [] →
      env.batchOk it.title (env.fetchArticles it.url) it.url = false →
      derivedNotify env (some it) hist = (hist, false)) := by
  refine ⟨?_, ?_, ?_, ?_, ?_⟩
  · rw [processNews_def]
    exact foldl_newsStep_date env ((links.take 5).reverse) ⟨h, false, none, [], []⟩ rfl
  · intro hm
    simp [derivedNotify, hm]
  · intro hm hf
    simp [derivedNotify, hm, hf]
  · intro hm hf hb
    simp [derivedNotify, hm, hf, hb]
  · intro hm hf hb
    simp [derivedNotify, hm, hf, hb]

/-- C4 witness: each guarded branch of the derived-page step exercised at a
concrete input through the theorem. -/
theorem C4_derived_page_witness :
    derivedNotify envAllOk (some ⟨"t", "k"⟩) ⟨[], [], ["k"]⟩ = (⟨[], [], ["k"]⟩, false) ∧
    derivedNotify envAllOk (some ⟨"t", "k"⟩) ⟨[], [], []⟩ = (⟨[], [], []⟩, false) ∧
    derivedNotify envArts (some ⟨"t", "k"⟩) ⟨[], [], []⟩ = (⟨[], [], ["k"]⟩, true) ∧
    derivedNotify envArtsFail (some ⟨"t", "k"⟩) ⟨[], [], []⟩ = (⟨[], [], []⟩, false) := by
  refine ⟨(C4_derived_page envAllOk ⟨[], [], []⟩ [] ⟨"t", "k"⟩ ⟨[], [], ["k"]⟩).2.1 (by decide),
    (C4_derived_page envAllOk ⟨[], [], []⟩ [] ⟨"t", "k"⟩ ⟨[], [], []⟩).2.2.1 (by decide) (by decide),
    (C4_derived_page envArts ⟨[], [], []⟩ [] ⟨"t", "k"⟩ ⟨[], [], []⟩).2.2.2.1
      (by decide) (by decide) (by decide),
    (C4_derived_page envArtsFail ⟨[], [], []⟩ [] ⟨"t", "k"⟩ ⟨[], [], []⟩).2.2.2.2
      (by decide) (by decide) (by decide)⟩

/-- A readable persisted state that lacks the `news` list. -/
def rawNoNews : RawHistory := ⟨none, some [], some []⟩

/-- C5 counterexample: `load_history` does not backfill a missing `news` list
(only `news_articles` is backfilled), and with a non-empty news window the run
then fails with a KeyError instead of proceeding normally. -/
theorem C5_cex :
    (load_history (.readable rawNoNews)).news = none ∧
    runFromRaw envAllOk (load_history (.readable rawNoNews)) [⟨"t", "u"⟩] []
      = .error () :=
  ⟨rfl, rfl⟩

/-- C5 (amended): on a missing or unreadable file, load returns three empty
logs and never fails the caller; for a readable state only the missing
`news_articles` list is treated as empty (the run then proceeds normally),
while the `news` and `editorials` entries are returned exactly as persisted —
a readable state missing one of those two lists is not repaired, and the run
fails when that section has candidates. -/
theorem C5_load_partial (raw : RawHistory) (env : Env) (n e : List String)
    (nl el : List Item) :
    load_history .missing = ⟨some [], some [], some []⟩ ∧
    load_history .unreadable = ⟨some [], some [], some []⟩ ∧
    (load_history (.readable raw)).news = raw.news ∧
    (load_history (.readable raw)).editorials = raw.editorials ∧
    (load_history (.readable raw)).news_articles = some (raw.news_articles.getD []) ∧
    runFromRaw env (load_history (.readable ⟨some n, some e, none⟩)) nl el
      = .ok (runEngine env ⟨n, e, []⟩ nl el) := by
  refine ⟨rfl, rfl, rfl, rfl, rfl, ?_⟩
  have hc1 : ¬((nl.take 5) ≠ [] ∧
      (load_history (.readable ⟨some n, some e, none⟩)).news = none) := by
    simp [load_history]
  have hc2 : ¬((el.take 5) ≠ [] ∧
      (load_history (.readable ⟨some n, some e, none⟩)).editorials = none) := by
    simp [load_history]
  unfold runFromRaw
  rw [if_neg hc1, if_neg hc2]
  rfl

/-- Oracle where delivery fails exactly for the URL `u2`. -/
def envFailOne : Env :=
  ⟨fun _ u _ => if u = "u2" then false else true, fun _ => [], fun _ _ _ => true⟩

/-- C6: when a delivery fails, the item's URL is recorded in no history log
(the whole state is unchanged except the attempt trace), so it will be retried
next run; and the failure does not stop the loop — in the concrete scenario
where the older candidate `u2` fails, the later candidate `u1` is still
checked, attempted, delivered and logged. -/
theorem C6_failure_isolated (env : Env) (s : NewsState) (s' : EdState) (it : Item) :
    (it.url ∉ s.hist.news →
      env.notifyOk it.title it.url "Daily Current Affairs" = false →
      newsStep env s it = { s with attempts := s.attempts ++ [it.url] }) ∧
    (it.url ∉ s'.hist.editorials →
      env.notifyOk it.title it.url "Important Editorial" = false →
      edStep env s' it = { s' with attempts := s'.attempts ++ [it.url] }) ∧
    (runEngine envFailOne ⟨[], [], []⟩ [⟨"t1", "u1"⟩, ⟨"t2", "u2"⟩] []).newsAttempts
      = ["u2", "u1"] ∧
    (runEngine envFailOne ⟨[], [], []⟩ [⟨"t1", "u1"⟩, ⟨"t2", "u2"⟩] []).newsSent
      = ["u1"] ∧
    (runEngine envFailOne ⟨[], [], []⟩ [⟨"t1", "u1"⟩, ⟨"t2", "u2"⟩] []).hist
      = ⟨["u1"], [], []⟩ :=
  ⟨newsStep_of_fail env s it, edStep_of_fail env s' it, by decide, by decide, by decide⟩

/-- C6 witness: the failure step lemma applied at a concrete state. -/
theorem C6_failure_isolated_witness :
    newsStep envFailOne ⟨⟨[], [], []⟩, false, none, [], []⟩ ⟨"t2", "u2"⟩ =
      ⟨⟨[], [], []⟩, false, none, ["u2"], []⟩ :=
  (C6_failure_isolated envFailOne ⟨⟨[], [], []⟩, false, none, [], []⟩
    ⟨⟨[], [], []⟩, false, [], []⟩ ⟨"t2", "u2"⟩).1 (by decide) (by decide)

/-- C7: the new-items flag is set exactly when at least one announcement
succeeded in the run (an item delivery in either category, or the derived
batch), and `main` writes the history back exactly when that flag is set —
otherwise no save is attempted. -/
theorem C7_persist_iff_new (env : Env) (h : History) (nl el : List Item)
    (saveOk : Bool) :
    ((runEngine env h nl el).newFound = true ↔
      ((runEngine env h nl el).newsSent ≠ [] ∨
        (runEngine env h nl el).edsSent ≠ [] ∨
        (runEngine env h nl el).derivedOk = true)) ∧
    (mainModel true (some (nl, el)) env
        (.readable ⟨some h.news, some h.editorials, some h.news_articles⟩)
        saveOk).saveResult
      = (if (runEngine env h nl el).newFound then some saveOk else none) := by
  constructor
  · rw [runEngine_newFound, runEngine_newsSent, runEngine_edsSent, runEngine_derivedOk,
      processNews_def, processEditorials_def]
    have hn := foldl_newsStep_flag env ((nl.take 5).reverse)
      ⟨h, false, none, [], []⟩ (by simp)
    have he := foldl_edStep_flag env ((el.take 5).reverse)
      ⟨(List.foldl (newsStep env) ⟨h, false, none, [], []⟩ ((nl.take 5).reverse)).hist,
        false, [], []⟩ (by simp)
    simp only [Bool.or_eq_true, hn, he]
    exact or_assoc
  · have hc1 : ¬((nl.take 5) ≠ [] ∧ (some h.news : Option (List String)) = none) := by
      simp
    have hc2 : ¬((el.take 5) ≠ [] ∧ (some h.editorials : Option (List String)) = none) := by
      simp
    have hrun : runFromRaw env
        (load_history (.readable ⟨some h.news, some h.editorials, some h.news_articles⟩))
        nl el = .ok (runEngine env h nl el) := by
      show runFromRaw env ⟨some h.news, some h.editorials, some h.news_articles⟩ nl el
        = .ok (runEngine env h nl el)
      unfold runFromRaw
      rw [if_neg hc1, if_neg hc2]
      rfl
    simp [mainModel, hrun]

/-- C8 counterexample: the webhook is configured and the front-page fetch
succeeds, yet the process exits non-zero — the loaded history is readable but
lacks the `news` list and the news window is non-empty, so the run dies on a
KeyError. -/
theorem C8_cex :
    (mainModel true (some ([⟨"t", "u"⟩], [])) envAllOk
      (.readable rawNoNews) true).exitCode ≠ 0 := by
  decide

/-- C8 (amended): the unconfigured-endpoint case aborts with exit 1 before any
network I/O; a failed front-page fetch exits 1; a run whose loaded history is
readable but lacks the `news` (resp. `editorials`) list while that section's
top-5 window is non-empty dies on a KeyError, exiting non-zero; every other
completed run exits 0, including one with no new items, and the exit code
never depends on whether the history save succeeds. -/
theorem C8_exit_codes (fetched : Option (List Item × List Item)) (env : Env)
    (li : LoadInput) (saveOk saveOk' : Bool) (nl el : List Item) :
    mainModel false fetched env li saveOk = ⟨1, false, none, none⟩ ∧
    mainModel true none env li saveOk = ⟨1, true, none, none⟩ ∧
    (∀ r : RunResult, runFromRaw env (load_history li) nl el = .ok r →
      mainModel true (some (nl, el)) env li saveOk =
        ⟨0, true, if r.newFound then some saveOk else none, some r⟩) ∧
    (runFromRaw env (load_history li) nl el = .error () →
      mainModel true (some (nl, el)) env li saveOk = ⟨1, true, none, none⟩) ∧
    (mainModel true (some (nl, el)) env li saveOk).exitCode =
      (mainModel true (some (nl, el)) env li saveOk').exitCode ∧
    ((∃ r : RunResult, runFromRaw env (load_history li) nl el = .ok r) ↔
      ¬(((nl.take 5) ≠ [] ∧ (load_history li).news = none) ∨
        ((el.take 5) ≠ [] ∧ (load_history li).editorials = none))) := by
  refine ⟨rfl, rfl, ?_, ?_, ?_, ?_⟩
  · intro r hr
    simp [mainModel, hr]
  · intro hr
    simp [mainModel, hr]
  · cases hres : runFromRaw env (load_history li) nl el with
    | error u => simp [mainModel, hres]
    | ok r => simp [mainModel, hres]
  · unfold runFromRaw
    by_cases c1 : (nl.take 5) ≠ [] ∧ (load_history li).news = none
    · rw [if_pos c1]
      constructor
      · rintro ⟨r, hr⟩
        exact absurd hr (by simp)
      · intro hn
        exact absurd (Or.inl c1) hn
    · rw [if_neg c1]
      by_cases c2 : (el.take 5) ≠ [] ∧ (load_history li).editorials = none
      · rw [if_pos c2]
        constructor
        · rintro ⟨r, hr⟩
          exact absurd hr (by simp)
        · intro hn
          exact absurd (Or.inr c2) hn
      · rw [if_neg c2]
        constructor
        · intro _
          rintro (hc | hc)
          · exact c1 hc
          · exact c2 hc
        · intro _
          exact ⟨_, rfl⟩

/-- C8 witness: a completed run with nothing new exits 0 and saves nothing,
and the KeyError branch exits 1, both through the theorem. -/
theorem C8_exit_codes_witness :
    mainModel true (some ([], [])) envAllOk .missing true =
      ⟨0, true, none, some (runEngine envAllOk ⟨[], [], []⟩ [] [])⟩ ∧
    mainModel true (some ([⟨"t", "u"⟩], [])) envAllOk (.readable rawNoNews) true =
      ⟨1, true, none, none⟩ := by
  constructor
  · exact (C8_exit_codes (some ([], [])) envAllOk .missing true true [] []).2.2.1
      (runEngine envAllOk ⟨[], [], []⟩ [] []) rfl
  · exact (C8_exit_codes (some ([⟨"t", "u"⟩], [])) envAllOk (.readable rawNoNews)
      true true [⟨"t", "u"⟩] []).2.2.2.1 rfl
